import Mathlib

/-!
# AuraSpeak/protocol: the packet codec

A shallow embedding of `packet.go`, `types.go`, `flags.go` and `errors.go`,
and the properties of the codecs and of the flag bitset proved over it.

Conventions of the embedding:

* a Go `byte`, `uint8`, `uint16` or `uint32` is a `Nat`; the range of the Go
  type is an explicit hypothesis (`IsBytes`, `Header.InRange`) and every
  conversion or shift that can truncate carries its `% 2 ^ w`;
* a Go `[]byte` is a `List Nat` (a `nil` slice and an empty slice are both
  `[]`; the capacity of a slice is taken to be its length, the strictest
  reading of the bounds rules);
* Go code that evaluates index or slice expressions runs in `Exec`: the
  outcome is `none` when an index or slice expression is out of range (a
  run-time fault of the Go program) and `reads` counts the index expressions
  evaluated, so that "does not fault" and "does not look at the bytes" are
  statements about the model;
* a Go result `(T, error)` is a pair whose second component is `none` for a
  `nil` error; a `*Packet` is an `Option Packet` (`none` is `nil`);
* a method with a pointer receiver that assigns to `*f` is a function from the
  old value to the new one.
-/

namespace Protocol

/-! ## errors.go -/

/-- The four error values declared in `errors.go`. -/
inductive Err where
  | ErrInvalidMagic
  | ErrInvalidVersion
  | ErrInvalidPacketType
  | ErrDataTooShort
  deriving DecidableEq, Repr

/-! ## Go run-time model: index and slice expressions -/

/-- Outcome of a run of Go code: `out = none` is a run-time fault (index or
slice bounds out of range), `reads` is the number of index expressions
evaluated on byte slices. -/
structure Exec (α : Type) where
  reads : Nat
  out : Option α
  deriving DecidableEq, Repr

/-- Finish with a value, evaluating nothing. -/
def Exec.ret {α : Type} (a : α) : Exec α := ⟨0, some a⟩

/-- Run-time fault. -/
def Exec.fault {α : Type} : Exec α := ⟨0, none⟩

/-- The run `r` preceded by `n` index expressions. -/
def Exec.after {α : Type} (n : Nat) (r : Exec α) : Exec α := ⟨n + r.reads, r.out⟩

/-- Sequencing: run `m`, then `f` on its value; a fault stops the run. -/
def Exec.bind {α β : Type} (m : Exec α) (f : α → Exec β) : Exec β :=
  match m.out with
  | none => ⟨m.reads, none⟩
  | some a => Exec.after m.reads (f a)

/-- Index expression `s[i]`: faults when `i` is not below `len(s)`. -/
def index (s : List Nat) (i : Nat) : Exec Nat :=
  match s[i]? with
  | some b => ⟨1, some b⟩
  | none => ⟨1, none⟩

/-- Slice expression `s[lo:hi]`: faults unless `lo ≤ hi ≤ len(s)`. -/
def slice (s : List Nat) (lo hi : Nat) : Exec (List Nat) :=
  if lo ≤ hi ∧ hi ≤ s.length then Exec.ret ((s.drop lo).take (hi - lo)) else Exec.fault

/-! ## Fixed-width integers -/

/-- Conversion to `byte` / `uint8`. -/
def byte (x : Nat) : Nat := x % 2 ^ 8

/-- Conversion to `uint16`. -/
def uint16 (x : Nat) : Nat := x % 2 ^ 16

/-- Conversion to `uint32`. -/
def uint32 (x : Nat) : Nat := x % 2 ^ 32

/-- Every element is in the range of a Go `byte`. -/
def IsBytes (data : List Nat) : Prop := ∀ b ∈ data, b < 256

instance (data : List Nat) : Decidable (IsBytes data) := by
  unfold IsBytes; infer_instance

/-! ## encoding/binary (Go standard library), big-endian -/

/-- `binary.BigEndian.Uint16(b)`:
`_ = b[1]; return uint16(b[1]) | uint16(b[0])<<8`. -/
def BigEndian.Uint16 (b : List Nat) : Exec Nat :=
  (index b 1).bind fun _ =>
  (index b 1).bind fun b1 =>
  (index b 0).bind fun b0 =>
  Exec.ret (uint16 b1 ||| uint16 (uint16 b0 <<< 8))

/-- `binary.BigEndian.Uint32(b)`:
`_ = b[3]; return uint32(b[3]) | uint32(b[2])<<8 | uint32(b[1])<<16 | uint32(b[0])<<24`. -/
def BigEndian.Uint32 (b : List Nat) : Exec Nat :=
  (index b 3).bind fun _ =>
  (index b 3).bind fun b3 =>
  (index b 2).bind fun b2 =>
  (index b 1).bind fun b1 =>
  (index b 0).bind fun b0 =>
  Exec.ret (uint32 b3 ||| uint32 (uint32 b2 <<< 8) ||| uint32 (uint32 b1 <<< 16)
    ||| uint32 (uint32 b0 <<< 24))

/-- `binary.BigEndian.PutUint16` on a fresh 2-byte slice:
`b[0] = byte(v >> 8); b[1] = byte(v)`. -/
def BigEndian.PutUint16 (v : Nat) : List Nat :=
  [byte (v >>> 8), byte v]

/-- `binary.BigEndian.PutUint32` on a fresh 4-byte slice:
`b[0] = byte(v >> 24); b[1] = byte(v >> 16); b[2] = byte(v >> 8); b[3] = byte(v)`. -/
def BigEndian.PutUint32 (v : Nat) : List Nat :=
  [byte (v >>> 24), byte (v >>> 16), byte (v >>> 8), byte v]

/-! ## bytes.Buffer (Go standard library) -/

/-- A `bytes.Buffer` that is only written to: its unread contents. -/
structure Buffer where
  buf : List Nat
  deriving DecidableEq, Repr

/-- `bytes.NewBuffer(b)`: a buffer whose initial contents are `b`.  The source
always passes `make([]byte, 0, n)`, the empty slice with capacity `n`. -/
def NewBuffer (b : List Nat) : Buffer := ⟨b⟩

/-- `buf.WriteByte(c)` appends one byte. -/
def Buffer.WriteByte (b : Buffer) (c : Nat) : Buffer := ⟨b.buf ++ [c]⟩

/-- `buf.Write(p)` appends the contents of `p`. -/
def Buffer.Write (b : Buffer) (p : List Nat) : Buffer := ⟨b.buf ++ p⟩

/-- `buf.Bytes()` is the unread portion of the buffer. -/
def Buffer.Bytes (b : Buffer) : List Nat := b.buf

/-! ## types.go -/

/-- Modelled from the spec: the constant `PacketTypeNone` is declared in a
generated file that is not part of the sources; the spec's wire-format table
gives the reserved "none" sentinel as `0x00`. -/
def PacketTypeNone : Nat := 0x00

/-- Modelled from the spec: the constant `PacketTypeDebugHello` is declared in
the same generated file; the spec's concrete scenario gives it as `0x90`. -/
def PacketTypeDebugHello : Nat := 0x90

/-- `IsValidPacketType`: `return packetType != PacketTypeNone`. -/
def IsValidPacketType (packetType : Nat) : Bool :=
  packetType != PacketTypeNone

/-! ## packet.go -/

/-- The constant `Magic`. -/
def Magic : Nat := 0xAE

/-- The constant `Version`. -/
def Version : Nat := 0x01

/-- The constant `HeaderSize`. -/
def HeaderSize : Nat := 14

/-- The struct `Header`. -/
structure Header where
  Magic : Nat
  Version : Nat
  PacketType : Nat
  Flags : Nat
  ID : Nat
  Length : Nat
  FragmentID : Nat
  deriving DecidableEq, Repr

/-- The zero value `Header{}`. -/
def Header.zero : Header := ⟨0, 0, 0, 0, 0, 0, 0⟩

/-- Every field is in the range of its Go type
(`uint8`, `uint8`, `PacketType = uint8`, `uint8`, `uint32`, `uint32`, `uint16`). -/
def Header.InRange (h : Header) : Prop :=
  h.Magic < 2 ^ 8 ∧ h.Version < 2 ^ 8 ∧ h.PacketType < 2 ^ 8 ∧ h.Flags < 2 ^ 8 ∧
    h.ID < 2 ^ 32 ∧ h.Length < 2 ^ 32 ∧ h.FragmentID < 2 ^ 16

instance (h : Header) : Decidable h.InRange := by
  unfold Header.InRange; infer_instance

/-- The struct `Packet`. -/
structure Packet where
  PacketHeader : Header
  Payload : List Nat
  deriving DecidableEq, Repr

/-- `wirteUint16`: `binary.Write(buf, binary.BigEndian, value)` for a `uint16`
puts the value big-endian into a fresh 2-byte slice and writes it to `buf`. -/
def wirteUint16 (buf : Buffer) (value : Nat) : Buffer :=
  buf.Write (BigEndian.PutUint16 value)

/-- `wirteUint32`: `binary.Write(buf, binary.BigEndian, value)` for a `uint32`
puts the value big-endian into a fresh 4-byte slice and writes it to `buf`. -/
def wirteUint32 (buf : Buffer) (value : Nat) : Buffer :=
  buf.Write (BigEndian.PutUint32 value)

/-- `EncodeHeader`. -/
def EncodeHeader (header : Header) : List Nat :=
  let buf := NewBuffer []
  let buf := buf.WriteByte (byte header.Magic)
  let buf := buf.WriteByte (byte header.Version)
  let buf := buf.WriteByte (byte header.PacketType)
  let buf := buf.WriteByte (byte header.Flags)
  let buf := wirteUint32 buf header.ID
  let buf := wirteUint32 buf header.Length
  let buf := wirteUint16 buf header.FragmentID
  buf.Bytes

/-- `(*Packet).Encode`. -/
def Packet.Encode (p : Packet) : List Nat :=
  let buf := NewBuffer []
  let buf := buf.Write (EncodeHeader p.PacketHeader)
  let buf := buf.Write p.Payload
  buf.Bytes

/-- `DecodeHeader`.  The closing log call reads the name table at
`packetType` (a map read, which cannot fault) and does not touch `data` or the
result; it is left out. -/
def DecodeHeader (data : List Nat) : Exec (Header × Option Err) :=
  if data.length < HeaderSize then
    Exec.ret (Header.zero, some Err.ErrDataTooShort)
  else
    (index data 0).bind fun magic =>
    (index data 1).bind fun version =>
    (index data 2).bind fun packetType =>
    (index data 3).bind fun flags =>
    (slice data 4 8).bind fun idBytes =>
    (BigEndian.Uint32 idBytes).bind fun id =>
    (slice data 8 12).bind fun lengthBytes =>
    (BigEndian.Uint32 lengthBytes).bind fun length =>
    (slice data 12 14).bind fun fragmentBytes =>
    (BigEndian.Uint16 fragmentBytes).bind fun fragmentID =>
    if !IsValidPacketType packetType then
      Exec.ret (Header.zero, some Err.ErrInvalidPacketType)
    else if magic != Magic then
      Exec.ret (Header.zero, some Err.ErrInvalidMagic)
    else if version != Version then
      Exec.ret (Header.zero, some Err.ErrInvalidVersion)
    else
      Exec.ret
        ({ Magic := magic, Version := version, PacketType := packetType, Flags := flags,
           ID := id, Length := length, FragmentID := fragmentID }, none)

/-- `Decode`. -/
def Decode (data : List Nat) : Exec (Option Packet × Option Err) :=
  if data.length < HeaderSize then
    Exec.ret (none, some Err.ErrDataTooShort)
  else
    (slice data 0 HeaderSize).bind fun headerBytes =>
    (DecodeHeader headerBytes).bind fun r =>
    match r.2 with
    | some err => Exec.ret (none, some err)
    | none =>
      (slice data HeaderSize data.length).bind fun payload =>
      Exec.ret (some { PacketHeader := r.1, Payload := payload }, none)

/-! ## flags.go -/

/-- `Flag.Has`: `return f&flag != 0`. -/
def Flag.Has (f flag : Nat) : Bool := (f &&& flag) != 0

/-- `(*Flag).Set`: `*f |= flag`; the new value of `*f`. -/
def Flag.Set (f flag : Nat) : Nat := f ||| flag

/-- `(*Flag).Clear`: `*f &^= flag`; the new value of `*f`.  The bit-clear
operator `&^` is AND with the complement of `flag`, the complement of a
`uint8` being its XOR with `0xFF`. -/
def Flag.Clear (f flag : Nat) : Nat := f &&& (flag ^^^ 0xFF)

/-- `(*Flag).Toggle`: `*f ^= flag`; the new value of `*f`. -/
def Flag.Toggle (f flag : Nat) : Nat := f ^^^ flag

/-! ## Test data of packet_test.go -/

/-- The packet of `TestEncodeDecode_RoundTrip`; the payload is the ASCII text
`roundtrip payload`. -/
def roundTripPacket : Packet :=
  { PacketHeader :=
      { Magic := Magic, Version := Version, PacketType := PacketTypeDebugHello,
        Flags := 0x42, ID := 1, Length := 100, FragmentID := 2 },
    Payload := [114, 111, 117, 110, 100, 116, 114, 105, 112, 32, 112, 97, 121, 108, 111, 97, 100] }

/-- The wire bytes of `roundTripPacket`: the header bytes of the spec's
concrete scenario followed by the payload text. -/
def roundTripBytes : List Nat :=
  [0xAE, 0x01, 0x90, 0x42, 0, 0, 0, 1, 0, 0, 0, 100, 0, 2,
   114, 111, 117, 110, 100, 116, 114, 105, 112, 32, 112, 97, 121, 108, 111, 97, 100]

/-- The packet of the example in the doc comment of `Packet.Encode`: only the
packet type is set, the payload is the ASCII text `Hello, Server!`. -/
def docExamplePacket : Packet :=
  { PacketHeader := { Header.zero with PacketType := PacketTypeDebugHello },
    Payload := [72, 101, 108, 108, 111, 44, 32, 83, 101, 114, 118, 101, 114, 33] }

/-- The header of `TestDecodeHeader_Valid` and `TestDecode_Valid`. -/
def validHeader : Header :=
  { Magic := Magic, Version := Version, PacketType := PacketTypeDebugHello,
    Flags := 0x42, ID := 1, Length := 100, FragmentID := 2 }

/-- The buffer of `TestDecode_Valid`: the bytes of `validHeader`, whose
`Length` field is 100, followed by the 7 bytes of the ASCII text `payload`. -/
def validBytes : List Nat :=
  [0xAE, 0x01, 0x90, 0x42, 0, 0, 0, 1, 0, 0, 0, 100, 0, 2,
   112, 97, 121, 108, 111, 97, 100]

/-- The four error values, in the order the decoders can return them. -/
def allErrs : List Err :=
  [Err.ErrDataTooShort, Err.ErrInvalidPacketType, Err.ErrInvalidMagic, Err.ErrInvalidVersion]

/-! ## Closed forms of the decoder results, used by the proofs -/

/-- What `DecodeHeader` returns on fourteen bytes followed by anything. -/
def headerResult (b0 b1 b2 b3 b4 b5 b6 b7 b8 b9 b10 b11 b12 b13 : Nat) : Header × Option Err :=
  if b2 = PacketTypeNone then (Header.zero, some Err.ErrInvalidPacketType)
  else if b0 ≠ Magic then (Header.zero, some Err.ErrInvalidMagic)
  else if b1 ≠ Version then (Header.zero, some Err.ErrInvalidVersion)
  else
    ({ Magic := b0, Version := b1, PacketType := b2, Flags := b3,
       ID := uint32 b7 ||| uint32 (uint32 b6 <<< 8) ||| uint32 (uint32 b5 <<< 16)
         ||| uint32 (uint32 b4 <<< 24),
       Length := uint32 b11 ||| uint32 (uint32 b10 <<< 8) ||| uint32 (uint32 b9 <<< 16)
         ||| uint32 (uint32 b8 <<< 24),
       FragmentID := uint16 b13 ||| uint16 (uint16 b12 <<< 8) }, none)

/-- What `Decode` returns on fourteen bytes followed by `rest`. -/
def packetResult (r : Header × Option Err) (rest : List Nat) : Option Packet × Option Err :=
  match r.2 with
  | some err => (none, some err)
  | none => (some { PacketHeader := r.1, Payload := rest }, none)

/-! ## Arithmetic of the big-endian conversions -/

theorem lor_shiftLeft_of_lt (x b i : Nat) (hx : x < 2 ^ i) :
    x ||| (b <<< i) = x + b * 2 ^ i := by
  rw [Nat.lor_comm, Nat.shiftLeft_eq, Nat.mul_comm b, ← Nat.mul_add_lt_is_or hx]
  omega

/-- The value `BigEndian.Uint32` computes from four bytes. -/
theorem uint32_lor_eq (b0 b1 b2 b3 : Nat) (h0 : b0 < 256) (h1 : b1 < 256) (h2 : b2 < 256)
    (h3 : b3 < 256) :
    uint32 b3 ||| uint32 (uint32 b2 <<< 8) ||| uint32 (uint32 b1 <<< 16)
        ||| uint32 (uint32 b0 <<< 24)
      = b0 * 16777216 + b1 * 65536 + b2 * 256 + b3 := by
  have e3 : uint32 b3 = b3 := by unfold uint32; omega
  have e2 : uint32 (uint32 b2 <<< 8) = b2 <<< 8 := by
    unfold uint32; rw [Nat.shiftLeft_eq]; omega
  have e1 : uint32 (uint32 b1 <<< 16) = b1 <<< 16 := by
    unfold uint32; rw [Nat.shiftLeft_eq]; omega
  have e0 : uint32 (uint32 b0 <<< 24) = b0 <<< 24 := by
    unfold uint32; rw [Nat.shiftLeft_eq]; omega
  rw [e3, e2, e1, e0, lor_shiftLeft_of_lt b3 b2 8 (by omega),
    lor_shiftLeft_of_lt _ b1 16 (by omega), lor_shiftLeft_of_lt _ b0 24 (by omega)]
  omega

/-- The value `BigEndian.Uint16` computes from two bytes. -/
theorem uint16_lor_eq (b0 b1 : Nat) (h0 : b0 < 256) (h1 : b1 < 256) :
    uint16 b1 ||| uint16 (uint16 b0 <<< 8) = b0 * 256 + b1 := by
  have e1 : uint16 b1 = b1 := by unfold uint16; omega
  have e0 : uint16 (uint16 b0 <<< 8) = b0 <<< 8 := by
    unfold uint16; rw [Nat.shiftLeft_eq]; omega
  rw [e1, e0, lor_shiftLeft_of_lt b1 b0 8 (by omega)]
  omega

theorem byte_lt (x : Nat) : byte x < 256 := by
  unfold byte; omega

/-! ## Evaluation of the decoders on a buffer of at least 14 bytes -/

theorem Exec.bind_some {α β : Type} (n : Nat) (a : α) (f : α → Exec β) :
    Exec.bind ⟨n, some a⟩ f = Exec.after n (f a) := rfl

theorem Uint32_four (b0 b1 b2 b3 : Nat) :
    BigEndian.Uint32 [b0, b1, b2, b3]
      = ⟨5, some (uint32 b3 ||| uint32 (uint32 b2 <<< 8) ||| uint32 (uint32 b1 <<< 16)
          ||| uint32 (uint32 b0 <<< 24))⟩ := rfl

theorem Uint16_two (b0 b1 : Nat) :
    BigEndian.Uint16 [b0, b1] = ⟨3, some (uint16 b1 ||| uint16 (uint16 b0 <<< 8))⟩ := rfl

/-- A list of length at least 14 is fourteen elements followed by a rest. -/
theorem exists_cons14 (data : List Nat) (h : 14 ≤ data.length) :
    ∃ b0 b1 b2 b3 b4 b5 b6 b7 b8 b9 b10 b11 b12 b13 rest,
      data = b0 :: b1 :: b2 :: b3 :: b4 :: b5 :: b6 :: b7 :: b8 :: b9 :: b10 :: b11 :: b12
        :: b13 :: rest := by
  match data, h with
  | b0 :: b1 :: b2 :: b3 :: b4 :: b5 :: b6 :: b7 :: b8 :: b9 :: b10 :: b11 :: b12 :: b13
      :: rest, _ =>
    exact ⟨b0, b1, b2, b3, b4, b5, b6, b7, b8, b9, b10, b11, b12, b13, rest, rfl⟩

theorem DecodeHeader_cons14 (b0 b1 b2 b3 b4 b5 b6 b7 b8 b9 b10 b11 b12 b13 : Nat)
    (rest : List Nat) :
    DecodeHeader (b0 :: b1 :: b2 :: b3 :: b4 :: b5 :: b6 :: b7 :: b8 :: b9 :: b10 :: b11
        :: b12 :: b13 :: rest)
      = ⟨17, some (headerResult b0 b1 b2 b3 b4 b5 b6 b7 b8 b9 b10 b11 b12 b13)⟩ := by
  have hlen : ¬ (b0 :: b1 :: b2 :: b3 :: b4 :: b5 :: b6 :: b7 :: b8 :: b9 :: b10 :: b11
      :: b12 :: b13 :: rest).length < HeaderSize := by
    simp only [List.length_cons, HeaderSize]; omega
  have hs1 : slice (b0 :: b1 :: b2 :: b3 :: b4 :: b5 :: b6 :: b7 :: b8 :: b9 :: b10 :: b11
      :: b12 :: b13 :: rest) 4 8 = ⟨0, some [b4, b5, b6, b7]⟩ := by
    simp [slice, Exec.ret]
  have hs2 : slice (b0 :: b1 :: b2 :: b3 :: b4 :: b5 :: b6 :: b7 :: b8 :: b9 :: b10 :: b11
      :: b12 :: b13 :: rest) 8 12 = ⟨0, some [b8, b9, b10, b11]⟩ := by
    simp [slice, Exec.ret]
  have hs3 : slice (b0 :: b1 :: b2 :: b3 :: b4 :: b5 :: b6 :: b7 :: b8 :: b9 :: b10 :: b11
      :: b12 :: b13 :: rest) 12 14 = ⟨0, some [b12, b13]⟩ := by
    simp [slice, Exec.ret]
  have i0 : index (b0 :: b1 :: b2 :: b3 :: b4 :: b5 :: b6 :: b7 :: b8 :: b9 :: b10 :: b11
      :: b12 :: b13 :: rest) 0 = ⟨1, some b0⟩ := rfl
  have i1 : index (b0 :: b1 :: b2 :: b3 :: b4 :: b5 :: b6 :: b7 :: b8 :: b9 :: b10 :: b11
      :: b12 :: b13 :: rest) 1 = ⟨1, some b1⟩ := rfl
  have i2 : index (b0 :: b1 :: b2 :: b3 :: b4 :: b5 :: b6 :: b7 :: b8 :: b9 :: b10 :: b11
      :: b12 :: b13 :: rest) 2 = ⟨1, some b2⟩ := rfl
  have i3 : index (b0 :: b1 :: b2 :: b3 :: b4 :: b5 :: b6 :: b7 :: b8 :: b9 :: b10 :: b11
      :: b12 :: b13 :: rest) 3 = ⟨1, some b3⟩ := rfl
  unfold DecodeHeader
  rw [if_neg hlen, i0, i1, i2, i3, hs1, hs2, hs3]
  simp only [Exec.bind_some, Uint32_four, Uint16_two, headerResult, IsValidPacketType]
  by_cases h2 : b2 = PacketTypeNone
  · simp [h2, Exec.ret, Exec.after]
  · by_cases h0 : b0 = Magic
    · by_cases h1 : b1 = Version
      · simp [h2, h0, h1, Exec.ret, Exec.after]
      · simp [h2, h0, h1, Exec.ret, Exec.after]
    · simp [h2, h0, Exec.ret, Exec.after]


theorem Decode_cons14 (b0 b1 b2 b3 b4 b5 b6 b7 b8 b9 b10 b11 b12 b13 : Nat)
    (rest : List Nat) :
    Decode (b0 :: b1 :: b2 :: b3 :: b4 :: b5 :: b6 :: b7 :: b8 :: b9 :: b10 :: b11
        :: b12 :: b13 :: rest)
      = ⟨17, some (packetResult (headerResult b0 b1 b2 b3 b4 b5 b6 b7 b8 b9 b10 b11 b12 b13)
          rest)⟩ := by
  have hlen : ¬ (b0 :: b1 :: b2 :: b3 :: b4 :: b5 :: b6 :: b7 :: b8 :: b9 :: b10 :: b11
      :: b12 :: b13 :: rest).length < HeaderSize := by
    simp only [List.length_cons, HeaderSize]; omega
  have hs1 : slice (b0 :: b1 :: b2 :: b3 :: b4 :: b5 :: b6 :: b7 :: b8 :: b9 :: b10 :: b11
      :: b12 :: b13 :: rest) 0 HeaderSize
        = ⟨0, some [b0, b1, b2, b3, b4, b5, b6, b7, b8, b9, b10, b11, b12, b13]⟩ := by
    simp [slice, Exec.ret, HeaderSize]
  have hs2 : slice (b0 :: b1 :: b2 :: b3 :: b4 :: b5 :: b6 :: b7 :: b8 :: b9 :: b10 :: b11
      :: b12 :: b13 :: rest) HeaderSize
        (b0 :: b1 :: b2 :: b3 :: b4 :: b5 :: b6 :: b7 :: b8 :: b9 :: b10 :: b11
          :: b12 :: b13 :: rest).length = ⟨0, some rest⟩ := by
    simp [slice, Exec.ret, HeaderSize]
  unfold Decode
  rw [if_neg hlen, hs1, hs2]
  simp only [Exec.bind_some, DecodeHeader_cons14, packetResult]
  cases (headerResult b0 b1 b2 b3 b4 b5 b6 b7 b8 b9 b10 b11 b12 b13).2 <;>
    simp [Exec.ret, Exec.after]

/-- The bytes `EncodeHeader` writes, as the source computes them. -/
theorem EncodeHeader_bytes (h : Header) :
    EncodeHeader h
      = [byte h.Magic, byte h.Version, byte h.PacketType, byte h.Flags,
         byte (h.ID >>> 24), byte (h.ID >>> 16), byte (h.ID >>> 8), byte h.ID,
         byte (h.Length >>> 24), byte (h.Length >>> 16), byte (h.Length >>> 8), byte h.Length,
         byte (h.FragmentID >>> 8), byte h.FragmentID] := rfl

theorem Packet.Encode_eq (p : Packet) :
    p.Encode = EncodeHeader p.PacketHeader ++ p.Payload := rfl

/-- Reading back the four bytes `PutUint32` writes for a 32-bit value. -/
theorem uint32_of_put (v : Nat) (hv : v < 2 ^ 32) :
    uint32 (byte v) ||| uint32 (uint32 (byte (v >>> 8)) <<< 8)
        ||| uint32 (uint32 (byte (v >>> 16)) <<< 16)
        ||| uint32 (uint32 (byte (v >>> 24)) <<< 24) = v := by
  rw [uint32_lor_eq _ _ _ _ (byte_lt _) (byte_lt _) (byte_lt _) (byte_lt _)]
  unfold byte
  simp only [Nat.shiftRight_eq_div_pow]
  norm_num at hv ⊢
  omega

/-- Reading back the two bytes `PutUint16` writes for a 16-bit value. -/
theorem uint16_of_put (v : Nat) (hv : v < 2 ^ 16) :
    uint16 (byte v) ||| uint16 (uint16 (byte (v >>> 8)) <<< 8) = v := by
  rw [uint16_lor_eq _ _ (byte_lt _) (byte_lt _)]
  unfold byte
  simp only [Nat.shiftRight_eq_div_pow]
  norm_num at hv ⊢
  omega

/-- Writing the value `Uint32` reads from four bytes gives the four bytes back. -/
theorem put_of_uint32 (b0 b1 b2 b3 : Nat) (h0 : b0 < 256) (h1 : b1 < 256) (h2 : b2 < 256)
    (h3 : b3 < 256) :
    BigEndian.PutUint32 (uint32 b3 ||| uint32 (uint32 b2 <<< 8) ||| uint32 (uint32 b1 <<< 16)
        ||| uint32 (uint32 b0 <<< 24)) = [b0, b1, b2, b3] := by
  rw [uint32_lor_eq _ _ _ _ h0 h1 h2 h3]
  unfold BigEndian.PutUint32 byte
  simp only [Nat.shiftRight_eq_div_pow]
  norm_num
  omega

/-- Writing the value `Uint16` reads from two bytes gives the two bytes back. -/
theorem put_of_uint16 (b0 b1 : Nat) (h0 : b0 < 256) (h1 : b1 < 256) :
    BigEndian.PutUint16 (uint16 b1 ||| uint16 (uint16 b0 <<< 8)) = [b0, b1] := by
  rw [uint16_lor_eq _ _ h0 h1]
  unfold BigEndian.PutUint16 byte
  simp only [Nat.shiftRight_eq_div_pow]
  norm_num
  omega

/-- On an in-range header that passes the three checks, decoding the encoded
bytes gives the header back. -/
theorem headerResult_encode (h : Header) (hr : h.InRange) (hm : h.Magic = Magic)
    (hv : h.Version = Version) (ht : h.PacketType ≠ PacketTypeNone) :
    headerResult (byte h.Magic) (byte h.Version) (byte h.PacketType) (byte h.Flags)
        (byte (h.ID >>> 24)) (byte (h.ID >>> 16)) (byte (h.ID >>> 8)) (byte h.ID)
        (byte (h.Length >>> 24)) (byte (h.Length >>> 16)) (byte (h.Length >>> 8))
        (byte h.Length) (byte (h.FragmentID >>> 8)) (byte h.FragmentID)
      = (h, none) := by
  obtain ⟨r0, r1, r2, r3, r4, r5, r6⟩ := hr
  have e0 : byte h.Magic = h.Magic := Nat.mod_eq_of_lt r0
  have e1 : byte h.Version = h.Version := Nat.mod_eq_of_lt r1
  have e2 : byte h.PacketType = h.PacketType := Nat.mod_eq_of_lt r2
  have e3 : byte h.Flags = h.Flags := Nat.mod_eq_of_lt r3
  unfold headerResult
  rw [e0, e1, e2, e3, if_neg ht, if_neg (not_not.mpr hm), if_neg (not_not.mpr hv),
    uint32_of_put h.ID r4, uint32_of_put h.Length r5, uint16_of_put h.FragmentID r6]


/-- The bytes `EncodeHeader` writes, grouped by the call that writes them. -/
theorem EncodeHeader_puts (h : Header) :
    EncodeHeader h
      = [byte h.Magic, byte h.Version, byte h.PacketType, byte h.Flags]
          ++ BigEndian.PutUint32 h.ID ++ BigEndian.PutUint32 h.Length
          ++ BigEndian.PutUint16 h.FragmentID := rfl

/-- On fourteen bytes that pass the three checks, encoding the decoded header
gives the fourteen bytes back. -/
theorem EncodeHeader_headerResult (b0 b1 b2 b3 b4 b5 b6 b7 b8 b9 b10 b11 b12 b13 : Nat)
    (hb : IsBytes [b0, b1, b2, b3, b4, b5, b6, b7, b8, b9, b10, b11, b12, b13])
    (h : Header) (hh : headerResult b0 b1 b2 b3 b4 b5 b6 b7 b8 b9 b10 b11 b12 b13 = (h, none)) :
    EncodeHeader h = [b0, b1, b2, b3, b4, b5, b6, b7, b8, b9, b10, b11, b12, b13] := by
  simp only [IsBytes, List.mem_cons, List.mem_singleton, forall_eq_or_imp, forall_eq,
    List.not_mem_nil, false_imp_iff, implies_true, and_true] at hb
  obtain ⟨c0, c1, c2, c3, c4, c5, c6, c7, c8, c9, c10, c11, c12, c13⟩ := hb
  unfold headerResult at hh
  split_ifs at hh with h2 h0 h1
  · simp at hh
  · simp at hh
  · simp at hh
  · simp only [Prod.mk.injEq, and_true] at hh
    subst hh
    rw [EncodeHeader_puts]
    simp only [put_of_uint32 _ _ _ _ c4 c5 c6 c7, put_of_uint32 _ _ _ _ c8 c9 c10 c11,
      put_of_uint16 _ _ c12 c13]
    have e0 : byte b0 = b0 := Nat.mod_eq_of_lt c0
    have e1 : byte b1 = b1 := Nat.mod_eq_of_lt c1
    have e2 : byte b2 = b2 := Nat.mod_eq_of_lt c2
    have e3 : byte b3 = b3 := Nat.mod_eq_of_lt c3
    rw [e0, e1, e2, e3]
    rfl

/-! ## Round trips -/

/-- C1. Header round trip: for every header whose fields are in the range of
their Go types and which has `Magic = 0xAE`, `Version = 0x01` and a packet type
other than `PacketTypeNone`, `DecodeHeader (EncodeHeader h)` runs without
fault and returns `h` itself (all seven fields) with a `nil` error. -/
theorem DecodeHeader_EncodeHeader (h : Header) (hr : h.InRange) (hm : h.Magic = 0xAE)
    (hv : h.Version = 0x01) (ht : h.PacketType ≠ PacketTypeNone) :
    (DecodeHeader (EncodeHeader h)).out = some (h, none) := by
  rw [EncodeHeader_bytes, DecodeHeader_cons14, headerResult_encode h hr hm hv ht]

theorem DecodeHeader_EncodeHeader_witness :
    roundTripPacket.PacketHeader.InRange ∧
      (DecodeHeader (EncodeHeader roundTripPacket.PacketHeader)).out
        = some (roundTripPacket.PacketHeader, none) :=
  ⟨by decide,
    DecodeHeader_EncodeHeader roundTripPacket.PacketHeader (by decide) (by decide) (by decide)
      (by decide)⟩

/-- C2, as stated, fails: the packet of the doc-comment example of
`Packet.Encode` has in-range fields, yet decoding its encoding returns a `nil`
packet and `ErrInvalidMagic`. -/
theorem Decode_Encode_docExample_fails :
    docExamplePacket.PacketHeader.InRange ∧
      (Decode docExamplePacket.Encode).out = some (none, some Err.ErrInvalidMagic) := by
  decide

/-- C2, amended. For every packet whose header fields are in the range of
their Go types, exactly one of two things happens: either the header has
`Magic = 0xAE`, `Version = 0x01` and a packet type other than `PacketTypeNone`,
and `Decode (p.Encode)` returns a packet equal to `p` (header fields and
payload) with a `nil` error; or the header fails one of the three conditions,
and `Decode (p.Encode)` returns a `nil` packet and an error. -/
theorem Decode_Encode_cases (p : Packet) (hr : p.PacketHeader.InRange) :
    ((p.PacketHeader.Magic = 0xAE ∧ p.PacketHeader.Version = 0x01 ∧
        p.PacketHeader.PacketType ≠ PacketTypeNone) ∧
      (Decode p.Encode).out = some (some p, none)) ∨
    (¬ (p.PacketHeader.Magic = 0xAE ∧ p.PacketHeader.Version = 0x01 ∧
        p.PacketHeader.PacketType ≠ PacketTypeNone) ∧
      ∃ e, (Decode p.Encode).out = some (none, some e)) := by
  have hdec : (Decode p.Encode).out
      = some (packetResult
          (headerResult (byte p.PacketHeader.Magic) (byte p.PacketHeader.Version)
            (byte p.PacketHeader.PacketType) (byte p.PacketHeader.Flags)
            (byte (p.PacketHeader.ID >>> 24)) (byte (p.PacketHeader.ID >>> 16))
            (byte (p.PacketHeader.ID >>> 8)) (byte p.PacketHeader.ID)
            (byte (p.PacketHeader.Length >>> 24)) (byte (p.PacketHeader.Length >>> 16))
            (byte (p.PacketHeader.Length >>> 8)) (byte p.PacketHeader.Length)
            (byte (p.PacketHeader.FragmentID >>> 8)) (byte p.PacketHeader.FragmentID))
          p.Payload) := by
    rw [Packet.Encode_eq, EncodeHeader_bytes]
    exact congrArg Exec.out (Decode_cons14 _ _ _ _ _ _ _ _ _ _ _ _ _ _ _)
  by_cases hvalid : p.PacketHeader.Magic = 0xAE ∧ p.PacketHeader.Version = 0x01 ∧
      p.PacketHeader.PacketType ≠ PacketTypeNone
  · left
    refine ⟨hvalid, ?_⟩
    rw [hdec, headerResult_encode p.PacketHeader hr hvalid.1 hvalid.2.1 hvalid.2.2]
    rfl
  · right
    refine ⟨hvalid, ?_⟩
    rw [hdec]
    have e0 : byte p.PacketHeader.Magic = p.PacketHeader.Magic := Nat.mod_eq_of_lt hr.1
    have e1 : byte p.PacketHeader.Version = p.PacketHeader.Version := Nat.mod_eq_of_lt hr.2.1
    have e2 : byte p.PacketHeader.PacketType = p.PacketHeader.PacketType :=
      Nat.mod_eq_of_lt hr.2.2.1
    unfold headerResult
    rw [e0, e1, e2]
    split_ifs with h2 h0 h1
    · exact ⟨_, rfl⟩
    · exact ⟨_, rfl⟩
    · exact ⟨_, rfl⟩
    · exact absurd ⟨not_not.mp h0, not_not.mp h1, h2⟩ hvalid

theorem Decode_Encode_cases_witness :
    docExamplePacket.PacketHeader.InRange ∧
      (((docExamplePacket.PacketHeader.Magic = 0xAE ∧
          docExamplePacket.PacketHeader.Version = 0x01 ∧
          docExamplePacket.PacketHeader.PacketType ≠ PacketTypeNone) ∧
        (Decode docExamplePacket.Encode).out = some (some docExamplePacket, none)) ∨
      (¬ (docExamplePacket.PacketHeader.Magic = 0xAE ∧
          docExamplePacket.PacketHeader.Version = 0x01 ∧
          docExamplePacket.PacketHeader.PacketType ≠ PacketTypeNone) ∧
        ∃ e, (Decode docExamplePacket.Encode).out = some (none, some e))) :=
  ⟨by decide, Decode_Encode_cases docExamplePacket (by decide)⟩

/-- C3. Packet round trip for valid headers: for every packet whose header
fields are in the range of their Go types, with `Magic = 0xAE`,
`Version = 0x01` and a packet type other than `PacketTypeNone`, and for every
payload (the empty one included), `Decode (p.Encode)` runs without fault and
returns a packet equal to `p` (header field by field, payload byte by byte)
with a `nil` error. -/
theorem Decode_Encode_valid (p : Packet) (hr : p.PacketHeader.InRange)
    (hm : p.PacketHeader.Magic = 0xAE) (hv : p.PacketHeader.Version = 0x01)
    (ht : p.PacketHeader.PacketType ≠ PacketTypeNone) :
    (Decode p.Encode).out = some (some p, none) := by
  rw [Packet.Encode_eq, EncodeHeader_bytes]
  refine (congrArg Exec.out (Decode_cons14 _ _ _ _ _ _ _ _ _ _ _ _ _ _ _)).trans ?_
  rw [headerResult_encode p.PacketHeader hr hm hv ht]
  rfl

theorem Decode_Encode_valid_witness :
    roundTripPacket.PacketHeader.InRange ∧
      roundTripPacket.PacketHeader.PacketType = 0x90 ∧
      (Decode roundTripPacket.Encode).out = some (some roundTripPacket, none) :=
  ⟨by decide, by decide,
    Decode_Encode_valid roundTripPacket (by decide) (by decide) (by decide) (by decide)⟩

/-- C4. Decode-then-encode identity: for every byte sequence `data` on which
`Decode` succeeds with packet `p`, `p.Encode` equals `data` byte for byte, and
its length is 14 plus the length of the payload. -/
theorem Encode_of_Decode (data : List Nat) (p : Packet) (hb : IsBytes data)
    (hd : (Decode data).out = some (some p, none)) :
    p.Encode = data ∧ p.Encode.length = 14 + p.Payload.length := by
  by_cases hlen : data.length < 14
  · simp [Decode, HeaderSize, hlen, Exec.ret] at hd
  · obtain ⟨b0, b1, b2, b3, b4, b5, b6, b7, b8, b9, b10, b11, b12, b13, rest, rfl⟩ :=
      exists_cons14 data (by omega)
    rw [Decode_cons14] at hd
    simp only [Option.some.injEq] at hd
    have hb14 : IsBytes [b0, b1, b2, b3, b4, b5, b6, b7, b8, b9, b10, b11, b12, b13] := by
      intro b hmem
      apply hb b
      simp only [List.mem_cons, List.mem_singleton, List.not_mem_nil, or_false] at hmem ⊢
      tauto
    cases hres : headerResult b0 b1 b2 b3 b4 b5 b6 b7 b8 b9 b10 b11 b12 b13 with
    | mk h e =>
      rw [hres] at hd
      cases e with
      | some err => simp [packetResult] at hd
      | none =>
        simp only [packetResult, Prod.mk.injEq, Option.some.injEq, and_true] at hd
        subst hd
        have henc := EncodeHeader_headerResult b0 b1 b2 b3 b4 b5 b6 b7 b8 b9 b10 b11 b12 b13
          hb14 h hres
        have hE : Packet.Encode { PacketHeader := h, Payload := rest }
            = b0 :: b1 :: b2 :: b3 :: b4 :: b5 :: b6 :: b7 :: b8 :: b9 :: b10 :: b11
              :: b12 :: b13 :: rest := by
          rw [Packet.Encode_eq, henc]; rfl
        rw [hE]
        refine ⟨rfl, ?_⟩
        simp only [List.length_cons]
        omega

theorem Encode_of_Decode_witness :
    IsBytes roundTripBytes ∧
      (Decode roundTripBytes).out = some (some roundTripPacket, none) ∧
      roundTripPacket.Encode = roundTripBytes ∧
      roundTripPacket.Encode.length = 14 + roundTripPacket.Payload.length :=
  ⟨by decide, by decide, Encode_of_Decode roundTripBytes roundTripPacket (by decide) (by decide)⟩


/-! ## Wire layout -/

/-- C5. Header wire layout: for every header whose fields are in the range of
their Go types, `EncodeHeader h` is exactly 14 bytes: `Magic`, `Version`,
`PacketType`, `Flags`, then the four bytes of `ID`, the four bytes of `Length`
and the two bytes of `FragmentID`, each most significant byte first. -/
theorem EncodeHeader_layout (h : Header) (hr : h.InRange) :
    (EncodeHeader h).length = 14 ∧
    EncodeHeader h
      = [h.Magic, h.Version, h.PacketType, h.Flags,
         h.ID / 2 ^ 24 % 256, h.ID / 2 ^ 16 % 256, h.ID / 2 ^ 8 % 256, h.ID % 256,
         h.Length / 2 ^ 24 % 256, h.Length / 2 ^ 16 % 256, h.Length / 2 ^ 8 % 256,
         h.Length % 256,
         h.FragmentID / 2 ^ 8 % 256, h.FragmentID % 256] := by
  obtain ⟨r0, r1, r2, r3, _, _, _⟩ := hr
  have e0 : byte h.Magic = h.Magic := Nat.mod_eq_of_lt r0
  have e1 : byte h.Version = h.Version := Nat.mod_eq_of_lt r1
  have e2 : byte h.PacketType = h.PacketType := Nat.mod_eq_of_lt r2
  have e3 : byte h.Flags = h.Flags := Nat.mod_eq_of_lt r3
  refine ⟨rfl, ?_⟩
  rw [EncodeHeader_bytes, e0, e1, e2, e3]
  simp only [byte, Nat.shiftRight_eq_div_pow]
  rfl

theorem EncodeHeader_layout_witness :
    roundTripPacket.PacketHeader.InRange ∧
      (EncodeHeader roundTripPacket.PacketHeader).length = 14 ∧
      EncodeHeader roundTripPacket.PacketHeader
        = [0xAE, 0x01, 0x90, 0x42, 0, 0, 0, 1, 0, 0, 0, 100, 0, 2] :=
  ⟨by decide, EncodeHeader_layout roundTripPacket.PacketHeader (by decide)⟩

/-- C6. Packet encoding is header then payload: for every packet,
`p.Encode` is `EncodeHeader p.PacketHeader` followed by `p.Payload` and
nothing else, and its length is exactly 14 plus the length of the payload. -/
theorem Encode_header_then_payload (p : Packet) :
    p.Encode = EncodeHeader p.PacketHeader ++ p.Payload ∧
      p.Encode.length = 14 + p.Payload.length := by
  refine ⟨rfl, ?_⟩
  rw [Packet.Encode_eq, EncodeHeader_bytes]
  simp only [List.length_append, List.length_cons, List.length_nil]

/-! ## Rejection of malformed input -/

/-- C7. Short input is rejected: for every byte sequence shorter than 14 bytes
(the empty one included), `DecodeHeader` and `Decode` both return
`ErrDataTooShort`, whatever the bytes are, without fault and without
evaluating a single index expression on the data. -/
theorem Decode_short (data : List Nat) (hlen : data.length < 14) :
    DecodeHeader data = ⟨0, some (Header.zero, some Err.ErrDataTooShort)⟩ ∧
      Decode data = ⟨0, some (none, some Err.ErrDataTooShort)⟩ := by
  have h : data.length < HeaderSize := hlen
  constructor
  · unfold DecodeHeader
    rw [if_pos h]
    rfl
  · unfold Decode
    rw [if_pos h]
    rfl

theorem Decode_short_witness :
    DecodeHeader [0xAF, 0x01, 0x00] = ⟨0, some (Header.zero, some Err.ErrDataTooShort)⟩ ∧
      Decode [0xAF, 0x01, 0x00] = ⟨0, some (none, some Err.ErrDataTooShort)⟩ :=
  Decode_short [0xAF, 0x01, 0x00] (by decide)

/-- C8. The packet-type check comes first: for every byte sequence of at
least 14 bytes whose byte 2 is `PacketTypeNone` (0x00), `DecodeHeader` and
`Decode` both return `ErrInvalidPacketType`, whatever the magic byte and the
version byte are. -/
theorem Decode_invalid_type (data : List Nat) (hlen : 14 ≤ data.length)
    (h2 : data[2]? = some 0x00) :
    (DecodeHeader data).out = some (Header.zero, some Err.ErrInvalidPacketType) ∧
      (Decode data).out = some (none, some Err.ErrInvalidPacketType) := by
  obtain ⟨b0, b1, b2, b3, b4, b5, b6, b7, b8, b9, b10, b11, b12, b13, rest, rfl⟩ :=
    exists_cons14 data hlen
  have e2 : b2 = PacketTypeNone := by simpa using h2
  rw [DecodeHeader_cons14, Decode_cons14]
  simp only [headerResult, if_pos e2, packetResult, and_self]

theorem Decode_invalid_type_witness :
    (DecodeHeader [0xAF, 0x02, 0x00, 0, 0, 0, 0, 0, 0, 0, 0, 0, 0, 0]).out
        = some (Header.zero, some Err.ErrInvalidPacketType) ∧
      (Decode [0xAF, 0x02, 0x00, 0, 0, 0, 0, 0, 0, 0, 0, 0, 0, 0]).out
        = some (none, some Err.ErrInvalidPacketType) :=
  Decode_invalid_type [0xAF, 0x02, 0x00, 0, 0, 0, 0, 0, 0, 0, 0, 0, 0, 0] (by decide) (by decide)

/-- C9. A bad magic byte is rejected before the version is looked at: for
every byte sequence of at least 14 bytes whose byte 2 is not 0x00 and whose
byte 0 is not 0xAE, `DecodeHeader` and `Decode` both return `ErrInvalidMagic`,
whatever the version byte is. -/
theorem Decode_invalid_magic (data : List Nat) (hlen : 14 ≤ data.length)
    (h2 : data[2]? ≠ some 0x00) (h0 : data[0]? ≠ some 0xAE) :
    (DecodeHeader data).out = some (Header.zero, some Err.ErrInvalidMagic) ∧
      (Decode data).out = some (none, some Err.ErrInvalidMagic) := by
  obtain ⟨b0, b1, b2, b3, b4, b5, b6, b7, b8, b9, b10, b11, b12, b13, rest, rfl⟩ :=
    exists_cons14 data hlen
  have e2 : ¬ b2 = PacketTypeNone := by simpa using h2
  have e0 : b0 ≠ Magic := by simpa using h0
  rw [DecodeHeader_cons14, Decode_cons14]
  simp only [headerResult, if_neg e2, if_pos e0, packetResult, and_self]

theorem Decode_invalid_magic_witness :
    (DecodeHeader [0xAF, 0x01, 0x90, 0, 0, 0, 0, 0, 0, 0, 0, 0, 0, 0]).out
        = some (Header.zero, some Err.ErrInvalidMagic) ∧
      (Decode [0xAF, 0x01, 0x90, 0, 0, 0, 0, 0, 0, 0, 0, 0, 0, 0]).out
        = some (none, some Err.ErrInvalidMagic) :=
  Decode_invalid_magic [0xAF, 0x01, 0x90, 0, 0, 0, 0, 0, 0, 0, 0, 0, 0, 0] (by decide)
    (by decide) (by decide)

/-- C10. A bad version is rejected last: for every byte sequence of at least
14 bytes whose byte 2 is not 0x00, whose byte 0 is 0xAE and whose byte 1 is not
0x01, `DecodeHeader` and `Decode` both return `ErrInvalidVersion`. -/
theorem Decode_invalid_version (data : List Nat) (hlen : 14 ≤ data.length)
    (h2 : data[2]? ≠ some 0x00) (h0 : data[0]? = some 0xAE) (h1 : data[1]? ≠ some 0x01) :
    (DecodeHeader data).out = some (Header.zero, some Err.ErrInvalidVersion) ∧
      (Decode data).out = some (none, some Err.ErrInvalidVersion) := by
  obtain ⟨b0, b1, b2, b3, b4, b5, b6, b7, b8, b9, b10, b11, b12, b13, rest, rfl⟩ :=
    exists_cons14 data hlen
  have e2 : ¬ b2 = PacketTypeNone := by simpa using h2
  have e0 : ¬ b0 ≠ Magic := by simpa using h0
  have e1 : b1 ≠ Version := by simpa using h1
  rw [DecodeHeader_cons14, Decode_cons14]
  simp only [headerResult, if_neg e2, if_neg e0, if_pos e1, packetResult, and_self]

theorem Decode_invalid_version_witness :
    (DecodeHeader [0xAE, 0x02, 0x90, 0, 0, 0, 0, 0, 0, 0, 0, 0, 0, 0]).out
        = some (Header.zero, some Err.ErrInvalidVersion) ∧
      (Decode [0xAE, 0x02, 0x90, 0, 0, 0, 0, 0, 0, 0, 0, 0, 0, 0]).out
        = some (none, some Err.ErrInvalidVersion) :=
  Decode_invalid_version [0xAE, 0x02, 0x90, 0, 0, 0, 0, 0, 0, 0, 0, 0, 0, 0] (by decide)
    (by decide) (by decide) (by decide)


/-! ## Shape of the decoder results -/

theorem DecodeHeader_lt (data : List Nat) (hlen : data.length < 14) :
    DecodeHeader data = ⟨0, some (Header.zero, some Err.ErrDataTooShort)⟩ := by
  have h : data.length < HeaderSize := hlen
  unfold DecodeHeader
  rw [if_pos h]
  rfl

theorem Decode_lt (data : List Nat) (hlen : data.length < 14) :
    Decode data = ⟨0, some (none, some Err.ErrDataTooShort)⟩ := by
  have h : data.length < HeaderSize := hlen
  unfold Decode
  rw [if_pos h]
  rfl

/-- When the closed form reports no error, the three checks passed and the
header holds the bytes read. -/
theorem headerResult_ok (b0 b1 b2 b3 b4 b5 b6 b7 b8 b9 b10 b11 b12 b13 : Nat) (h : Header)
    (hh : headerResult b0 b1 b2 b3 b4 b5 b6 b7 b8 b9 b10 b11 b12 b13 = (h, none)) :
    b2 ≠ PacketTypeNone ∧ b0 = Magic ∧ b1 = Version ∧ h.Magic = b0 ∧ h.Version = b1 ∧
      h.PacketType = b2 := by
  unfold headerResult at hh
  split_ifs at hh with h2 h0 h1
  · simp at hh
  · simp at hh
  · simp at hh
  · simp only [Prod.mk.injEq, and_true] at hh
    subst hh
    exact ⟨h2, not_not.mp h0, not_not.mp h1, rfl, rfl, rfl⟩

/-- The closed form reports no error, or the zero header with one of the
three validation errors. -/
theorem headerResult_shape (b0 b1 b2 b3 b4 b5 b6 b7 b8 b9 b10 b11 b12 b13 : Nat) :
    (headerResult b0 b1 b2 b3 b4 b5 b6 b7 b8 b9 b10 b11 b12 b13).2 = none ∨
      headerResult b0 b1 b2 b3 b4 b5 b6 b7 b8 b9 b10 b11 b12 b13
        = (Header.zero, some Err.ErrInvalidPacketType) ∨
      headerResult b0 b1 b2 b3 b4 b5 b6 b7 b8 b9 b10 b11 b12 b13
        = (Header.zero, some Err.ErrInvalidMagic) ∨
      headerResult b0 b1 b2 b3 b4 b5 b6 b7 b8 b9 b10 b11 b12 b13
        = (Header.zero, some Err.ErrInvalidVersion) := by
  unfold headerResult
  split_ifs with h2 h0 h1
  · exact Or.inr (Or.inl rfl)
  · exact Or.inr (Or.inr (Or.inl rfl))
  · exact Or.inr (Or.inr (Or.inr rfl))
  · exact Or.inl rfl

theorem slice_header_cons14 (b0 b1 b2 b3 b4 b5 b6 b7 b8 b9 b10 b11 b12 b13 : Nat)
    (rest : List Nat) :
    slice (b0 :: b1 :: b2 :: b3 :: b4 :: b5 :: b6 :: b7 :: b8 :: b9 :: b10 :: b11
        :: b12 :: b13 :: rest) 0 14
      = ⟨0, some [b0, b1, b2, b3, b4, b5, b6, b7, b8, b9, b10, b11, b12, b13]⟩ := by
  simp [slice, Exec.ret]

/-- Decoding the header of the slice `data[:14]` is decoding the header of
`data`. -/
theorem DecodeHeader_slice_cons14 (b0 b1 b2 b3 b4 b5 b6 b7 b8 b9 b10 b11 b12 b13 : Nat)
    (rest : List Nat) :
    (slice (b0 :: b1 :: b2 :: b3 :: b4 :: b5 :: b6 :: b7 :: b8 :: b9 :: b10 :: b11
        :: b12 :: b13 :: rest) 0 14).bind DecodeHeader
      = ⟨17, some (headerResult b0 b1 b2 b3 b4 b5 b6 b7 b8 b9 b10 b11 b12 b13)⟩ := by
  rw [slice_header_cons14, Exec.bind_some, DecodeHeader_cons14]
  rfl

/-! ## Successful decodes -/

/-- C11. Decoded-header invariant: whenever `DecodeHeader data` returns a
header with a `nil` error, or `Decode data` returns a packet with that header
and a `nil` error, the header has `Magic = 0xAE`, `Version = 0x01` and a
packet type that `IsValidPacketType` accepts. -/
theorem decoded_header_valid (data : List Nat) (h : Header)
    (hd : (DecodeHeader data).out = some (h, none) ∨
      ∃ payload, (Decode data).out = some (some { PacketHeader := h, Payload := payload }, none)) :
    h.Magic = 0xAE ∧ h.Version = 0x01 ∧ IsValidPacketType h.PacketType = true := by
  by_cases hlen : data.length < 14
  · rw [DecodeHeader_lt data hlen, Decode_lt data hlen] at hd
    simp at hd
  · obtain ⟨b0, b1, b2, b3, b4, b5, b6, b7, b8, b9, b10, b11, b12, b13, rest, rfl⟩ :=
      exists_cons14 data (by omega)
    rw [DecodeHeader_cons14, Decode_cons14] at hd
    have hres : headerResult b0 b1 b2 b3 b4 b5 b6 b7 b8 b9 b10 b11 b12 b13 = (h, none) := by
      rcases hd with hd | ⟨payload, hd⟩
      · simpa using hd
      · simp only [Option.some.injEq] at hd
        cases hr : headerResult b0 b1 b2 b3 b4 b5 b6 b7 b8 b9 b10 b11 b12 b13 with
        | mk h1 e =>
          rw [hr] at hd
          cases e with
          | some err => simp [packetResult] at hd
          | none =>
            simp only [packetResult, Prod.mk.injEq, Option.some.injEq, Packet.mk.injEq,
              and_true] at hd
            rw [hd.1]
    obtain ⟨h2, h0, h1, e0, e1, e2⟩ :=
      headerResult_ok b0 b1 b2 b3 b4 b5 b6 b7 b8 b9 b10 b11 b12 b13 h hres
    refine ⟨e0.trans h0, e1.trans h1, ?_⟩
    rw [e2]
    simpa [IsValidPacketType] using h2

theorem decoded_header_valid_witness :
    validHeader.Magic = 0xAE ∧ validHeader.Version = 0x01 ∧
      IsValidPacketType validHeader.PacketType = true :=
  decoded_header_valid validBytes validHeader (Or.inl (by decide))

/-- C12. Header decoding reads the fixed layout and only the first 14 bytes:
for every byte sequence of at least 14 bytes, decoding the header of the slice
`data[:14]` gives the same run and result (header or error) as decoding the
header of `data`; and when the bytes are in the range of a Go `byte`, byte 0 is
0xAE, byte 1 is 0x01 and byte 2 is not 0x00, `DecodeHeader data` succeeds with
`Magic`, `Version`, `PacketType` and `Flags` equal to bytes 0 to 3 (no
condition on byte 3) and `ID`, `Length` and `FragmentID` the big-endian values
of bytes 4 to 7, 8 to 11 and 12 to 13. -/
theorem DecodeHeader_layout (data : List Nat) (hlen : 14 ≤ data.length) :
    (slice data 0 14).bind DecodeHeader = DecodeHeader data ∧
    (IsBytes data → data[0]? = some 0xAE → data[1]? = some 0x01 → data[2]? ≠ some 0x00 →
      (DecodeHeader data).out = some
        ({ Magic := data.getD 0 0, Version := data.getD 1 0, PacketType := data.getD 2 0,
           Flags := data.getD 3 0,
           ID := data.getD 4 0 * 2 ^ 24 + data.getD 5 0 * 2 ^ 16 + data.getD 6 0 * 2 ^ 8
             + data.getD 7 0,
           Length := data.getD 8 0 * 2 ^ 24 + data.getD 9 0 * 2 ^ 16 + data.getD 10 0 * 2 ^ 8
             + data.getD 11 0,
           FragmentID := data.getD 12 0 * 2 ^ 8 + data.getD 13 0 }, none)) := by
  obtain ⟨b0, b1, b2, b3, b4, b5, b6, b7, b8, b9, b10, b11, b12, b13, rest, rfl⟩ :=
    exists_cons14 data hlen
  refine ⟨by rw [DecodeHeader_slice_cons14, DecodeHeader_cons14], ?_⟩
  intro hb h0 h1 h2
  have e2 : ¬ b2 = PacketTypeNone := by simpa using h2
  have e0 : ¬ b0 ≠ Magic := by simpa using h0
  have e1 : ¬ b1 ≠ Version := by simpa using h1
  have c4 : b4 < 256 := hb b4 (by simp)
  have c5 : b5 < 256 := hb b5 (by simp)
  have c6 : b6 < 256 := hb b6 (by simp)
  have c7 : b7 < 256 := hb b7 (by simp)
  have c8 : b8 < 256 := hb b8 (by simp)
  have c9 : b9 < 256 := hb b9 (by simp)
  have c10 : b10 < 256 := hb b10 (by simp)
  have c11 : b11 < 256 := hb b11 (by simp)
  have c12 : b12 < 256 := hb b12 (by simp)
  have c13 : b13 < 256 := hb b13 (by simp)
  rw [DecodeHeader_cons14]
  simp only [headerResult, if_neg e2, if_neg e0, if_neg e1, uint32_lor_eq _ _ _ _ c4 c5 c6 c7,
    uint32_lor_eq _ _ _ _ c8 c9 c10 c11, uint16_lor_eq _ _ c12 c13]
  simp

theorem DecodeHeader_layout_witness :
    (slice validBytes 0 14).bind DecodeHeader = DecodeHeader validBytes ∧
      (DecodeHeader validBytes).out = some (validHeader, none) :=
  ⟨(DecodeHeader_layout validBytes (by decide)).1,
    (DecodeHeader_layout validBytes (by decide)).2 (by decide) (by decide) (by decide)
      (by decide)⟩


/-- C13. The payload is the remainder and is not checked against `Length`:
for every byte sequence of at least 14 bytes such that decoding the header of
`data[:14]` returns header `h` with a `nil` error, `Decode data` succeeds with
`PacketHeader = h` and `Payload = data[14:]`; the same first 14 bytes followed
by any other payload, of any length, decode to `h` and that payload; and the
decode still succeeds, with that payload, when the four bytes of the `Length`
field are replaced by any others. -/
theorem Decode_payload_remainder (data : List Nat) (h : Header) (hlen : 14 ≤ data.length)
    (hh : ((slice data 0 14).bind DecodeHeader).out = some (h, none)) :
    (slice data 14 data.length).out = some (data.drop 14) ∧
    (Decode data).out = some (some { PacketHeader := h, Payload := data.drop 14 }, none) ∧
    (∀ payload : List Nat,
      (Decode (data.take 14 ++ payload)).out
        = some (some { PacketHeader := h, Payload := payload }, none)) ∧
    ∀ (l0 l1 l2 l3 : Nat) (payload : List Nat),
      ∃ h1, (Decode (data.take 8 ++ [l0, l1, l2, l3] ++ (data.take 14).drop 12 ++ payload)).out
        = some (some { PacketHeader := h1, Payload := payload }, none) := by
  obtain ⟨b0, b1, b2, b3, b4, b5, b6, b7, b8, b9, b10, b11, b12, b13, rest, rfl⟩ :=
    exists_cons14 data hlen
  rw [DecodeHeader_slice_cons14] at hh
  simp only [Option.some.injEq] at hh
  refine ⟨by simp [slice, Exec.ret], ?_, ?_, ?_⟩
  · rw [Decode_cons14, hh]
    rfl
  · intro payload
    have ht : (b0 :: b1 :: b2 :: b3 :: b4 :: b5 :: b6 :: b7 :: b8 :: b9 :: b10 :: b11
        :: b12 :: b13 :: rest).take 14 ++ payload
          = b0 :: b1 :: b2 :: b3 :: b4 :: b5 :: b6 :: b7 :: b8 :: b9 :: b10 :: b11
            :: b12 :: b13 :: payload := by
      simp
    rw [ht, Decode_cons14, hh]
    rfl
  · intro l0 l1 l2 l3 payload
    have ht : (b0 :: b1 :: b2 :: b3 :: b4 :: b5 :: b6 :: b7 :: b8 :: b9 :: b10 :: b11
        :: b12 :: b13 :: rest).take 8 ++ [l0, l1, l2, l3]
          ++ ((b0 :: b1 :: b2 :: b3 :: b4 :: b5 :: b6 :: b7 :: b8 :: b9 :: b10 :: b11
            :: b12 :: b13 :: rest).take 14).drop 12 ++ payload
          = b0 :: b1 :: b2 :: b3 :: b4 :: b5 :: b6 :: b7 :: l0 :: l1 :: l2 :: l3
            :: b12 :: b13 :: payload := by
      simp
    obtain ⟨h2, h0, h1, _, _, _⟩ :=
      headerResult_ok b0 b1 b2 b3 b4 b5 b6 b7 b8 b9 b10 b11 b12 b13 h hh
    rw [ht, Decode_cons14]
    simp only [headerResult, if_neg h2, if_neg (not_not.mpr h0), if_neg (not_not.mpr h1)]
    exact ⟨_, rfl⟩

theorem Decode_payload_remainder_witness :
    validHeader.Length = 100 ∧ (validBytes.drop 14).length = 7 ∧
      (slice validBytes 14 validBytes.length).out = some (validBytes.drop 14) ∧
      (Decode validBytes).out
        = some (some { PacketHeader := validHeader, Payload := validBytes.drop 14 }, none) ∧
      (∀ payload : List Nat,
        (Decode (validBytes.take 14 ++ payload)).out
          = some (some { PacketHeader := validHeader, Payload := payload }, none)) ∧
      ∀ (l0 l1 l2 l3 : Nat) (payload : List Nat),
        ∃ h1, (Decode (validBytes.take 8 ++ [l0, l1, l2, l3] ++ (validBytes.take 14).drop 12
            ++ payload)).out
          = some (some { PacketHeader := h1, Payload := payload }, none) :=
  ⟨by decide, by decide,
    Decode_payload_remainder validBytes validHeader (by decide) (by decide)⟩

/-! ## Errors of the decoders -/

/-- C14. `Decode` propagates header errors unchanged: for every byte sequence,
`Decode data` and `DecodeHeader data` both return (without fault), and the
error component of the one is the error component of the other: `Decode` fails
exactly when `DecodeHeader` fails, and then with the same error value. -/
theorem Decode_error_eq (data : List Nat) :
    ∃ rp rh, (Decode data).out = some rp ∧ (DecodeHeader data).out = some rh ∧
      rp.2 = rh.2 := by
  by_cases hlen : data.length < 14
  · rw [DecodeHeader_lt data hlen, Decode_lt data hlen]
    exact ⟨_, _, rfl, rfl, rfl⟩
  · obtain ⟨b0, b1, b2, b3, b4, b5, b6, b7, b8, b9, b10, b11, b12, b13, rest, rfl⟩ :=
      exists_cons14 data (by omega)
    rw [DecodeHeader_cons14, Decode_cons14]
    refine ⟨_, _, rfl, rfl, ?_⟩
    cases hr : headerResult b0 b1 b2 b3 b4 b5 b6 b7 b8 b9 b10 b11 b12 b13 with
    | mk h e =>
      cases e with
      | some err => rfl
      | none => rfl

/-- C15. Decoding is total on arbitrary input: for every byte sequence,
`DecodeHeader data` and `Decode data` return without fault (every index and
slice expression evaluated is in bounds); `DecodeHeader` returns a header with
a `nil` error or the zero header with one of the four errors, `Decode` returns
a packet with a `nil` error or a `nil` packet with one of the four errors; and
the four errors are pairwise distinct. -/
theorem Decode_total (data : List Nat) :
    (∃ r, (DecodeHeader data).out = some r ∧
      (r.2 = none ∨ ∃ e, e ∈ allErrs ∧ r = (Header.zero, some e))) ∧
    (∃ r, (Decode data).out = some r ∧
      ((∃ p, r = (some p, none)) ∨ ∃ e, e ∈ allErrs ∧ r = (none, some e))) ∧
    allErrs.Nodup := by
  refine ⟨?_, ?_, by decide⟩
  · by_cases hlen : data.length < 14
    · rw [DecodeHeader_lt data hlen]
      exact ⟨_, rfl, Or.inr ⟨Err.ErrDataTooShort, by decide, rfl⟩⟩
    · obtain ⟨b0, b1, b2, b3, b4, b5, b6, b7, b8, b9, b10, b11, b12, b13, rest, rfl⟩ :=
        exists_cons14 data (by omega)
      rw [DecodeHeader_cons14]
      refine ⟨_, rfl, ?_⟩
      rcases headerResult_shape b0 b1 b2 b3 b4 b5 b6 b7 b8 b9 b10 b11 b12 b13
        with h | h | h | h
      · exact Or.inl h
      · exact Or.inr ⟨Err.ErrInvalidPacketType, by decide, h⟩
      · exact Or.inr ⟨Err.ErrInvalidMagic, by decide, h⟩
      · exact Or.inr ⟨Err.ErrInvalidVersion, by decide, h⟩
  · by_cases hlen : data.length < 14
    · rw [Decode_lt data hlen]
      exact ⟨_, rfl, Or.inr ⟨Err.ErrDataTooShort, by decide, rfl⟩⟩
    · obtain ⟨b0, b1, b2, b3, b4, b5, b6, b7, b8, b9, b10, b11, b12, b13, rest, rfl⟩ :=
        exists_cons14 data (by omega)
      rw [Decode_cons14]
      refine ⟨_, rfl, ?_⟩
      rcases headerResult_shape b0 b1 b2 b3 b4 b5 b6 b7 b8 b9 b10 b11 b12 b13
        with h | h | h | h
      · left
        cases hr : headerResult b0 b1 b2 b3 b4 b5 b6 b7 b8 b9 b10 b11 b12 b13 with
        | mk hd e =>
          rw [hr] at h
          simp only at h
          subst h
          exact ⟨_, rfl⟩
      · exact Or.inr ⟨Err.ErrInvalidPacketType, by decide, by rw [h]; rfl⟩
      · exact Or.inr ⟨Err.ErrInvalidMagic, by decide, by rw [h]; rfl⟩
      · exact Or.inr ⟨Err.ErrInvalidVersion, by decide, by rw [h]; rfl⟩

/-! ## Packet types -/

/-- Of the 256 codes of a `uint8`, 255 are valid packet types. -/
theorem valid_code_count : ((List.range 256).filter IsValidPacketType).length = 255 := by
  have hr : List.range 256 = 0 :: (List.range 255).map Nat.succ := List.range_succ_eq_map 255
  have hall : ∀ a ∈ (List.range 255).map Nat.succ, IsValidPacketType a = true := by
    intro a ha
    obtain ⟨b, _, rfl⟩ := List.mem_map.mp ha
    simp [IsValidPacketType, PacketTypeNone]
  rw [hr, List.filter_cons_of_neg (by decide), List.filter_eq_self.mpr hall, List.length_map,
    List.length_range]

/-- C16. Permissive packet-type validity: for every code `c` (in particular
every 8-bit one), `IsValidPacketType c` is true exactly when `c` is not `PacketTypeNone` (0x00);
exactly 255 of the 256 codes are valid; and for a non-zero `c`, `DecodeHeader`
accepts every buffer of at least 14 bytes whose bytes 0, 1 and 2 are 0xAE,
0x01 and `c`, returning a header with packet type `c`. -/
theorem IsValidPacketType_permissive (c : Nat) :
    (IsValidPacketType c = true ↔ c ≠ 0x00) ∧
    ((List.range 256).filter IsValidPacketType).length = 255 ∧
    (c ≠ 0x00 → ∀ data : List Nat, 14 ≤ data.length → data[0]? = some 0xAE →
      data[1]? = some 0x01 → data[2]? = some c →
      ∃ h, (DecodeHeader data).out = some (h, none) ∧ h.PacketType = c) := by
  refine ⟨by simp [IsValidPacketType, PacketTypeNone], valid_code_count, ?_⟩
  intro hne data hlen h0 h1 h2
  obtain ⟨b0, b1, b2, b3, b4, b5, b6, b7, b8, b9, b10, b11, b12, b13, rest, rfl⟩ :=
    exists_cons14 data hlen
  have e2 : b2 = c := by simpa using h2
  have e2n : ¬ b2 = PacketTypeNone := by rw [e2]; exact hne
  have e0 : ¬ b0 ≠ Magic := by simpa using h0
  have e1 : ¬ b1 ≠ Version := by simpa using h1
  rw [DecodeHeader_cons14]
  simp only [headerResult, if_neg e2n, if_neg e0, if_neg e1]
  exact ⟨_, rfl, e2⟩

theorem IsValidPacketType_permissive_witness :
    (IsValidPacketType 0xFF = true ↔ (0xFF : Nat) ≠ 0x00) ∧
      ((List.range 256).filter IsValidPacketType).length = 255 ∧
      ∃ h, (DecodeHeader [0xAE, 0x01, 0xFF, 0, 0, 0, 0, 0, 0, 0, 0, 0, 0, 0]).out = some (h, none) ∧
        h.PacketType = 0xFF :=
  ⟨(IsValidPacketType_permissive 0xFF).1,
    (IsValidPacketType_permissive 0xFF).2.1,
    (IsValidPacketType_permissive 0xFF).2.2 (by decide)
      [0xAE, 0x01, 0xFF, 0, 0, 0, 0, 0, 0, 0, 0, 0, 0, 0] (by decide) (by decide) (by decide)
      (by decide)⟩


/-! ## Flag bitset -/

/-- Bits 8 and above of an 8-bit value are clear. -/
theorem testBit_of_lt_256 (x i : Nat) (hx : x < 256) (hi : 8 ≤ i) : x.testBit i = false := by
  apply Nat.testBit_lt_two_pow
  calc x < 2 ^ 8 := hx
    _ ≤ 2 ^ i := Nat.pow_le_pow_right (by decide) hi

/-- The bits of `0xFF` are the low eight. -/
theorem testBit_0xFF (i : Nat) : (0xFF : Nat).testBit i = decide (i < 8) := by
  have h : (0xFF : Nat) = 2 ^ 8 - 1 := by decide
  rw [h, Nat.testBit_two_pow_sub_one]

theorem lor_land_self (f m : Nat) : (f ||| m) &&& m = m := by
  apply Nat.eq_of_testBit_eq
  intro i
  simp only [Nat.testBit_and, Nat.testBit_or]
  cases f.testBit i <;> cases m.testBit i <;> rfl

theorem clear_land_self (f m : Nat) (hm : m < 256) : (f &&& (m ^^^ 0xFF)) &&& m = 0 := by
  apply Nat.eq_of_testBit_eq
  intro i
  simp only [Nat.testBit_and, Nat.testBit_xor, testBit_0xFF, Nat.zero_testBit]
  by_cases hi : i < 8
  · simp [hi]
  · have hmi := testBit_of_lt_256 m i hm (by omega)
    simp [hmi]

theorem land_ne_zero_iff (f m : Nat) (hf : f < 256) :
    f &&& m ≠ 0 ↔ ∃ i, i < 8 ∧ f.testBit i = true ∧ m.testBit i = true := by
  constructor
  · intro h
    obtain ⟨i, hi⟩ := Nat.ne_zero_implies_bit_true h
    rw [Nat.testBit_and, Bool.and_eq_true] at hi
    refine ⟨i, ?_, hi.1, hi.2⟩
    by_contra hge
    have hfi := testBit_of_lt_256 f i hf (by omega)
    rw [hfi] at hi
    exact Bool.false_ne_true hi.1
  · rintro ⟨i, _, h1, h2⟩ h0
    have hb : (f &&& m).testBit i = true := by rw [Nat.testBit_and, h1, h2]; rfl
    rw [h0, Nat.zero_testBit] at hb
    exact Bool.false_ne_true hb

/-- C17. `Flag.Has` has any-bit semantics: for every 8-bit `f` and every mask
`m` (in particular every 8-bit one), `f.Has(m)` is true exactly when `f & m` is not zero, that is, when some bit
position below 8 is set in both; `f.Has(0)` is false; and it is not a superset
test: `Has` is true for `f = 0x01`, `m = 0x03` although `f & m` is not `m`. -/
theorem Flag_Has_any_bit (f m : Nat) (hf : f < 256) :
    (Flag.Has f m = true ↔ f &&& m ≠ 0) ∧
    (Flag.Has f m = true ↔ ∃ i, i < 8 ∧ f.testBit i = true ∧ m.testBit i = true) ∧
    Flag.Has f 0 = false ∧
    (Flag.Has 0x01 0x03 = true ∧ (0x01 : Nat) &&& 0x03 ≠ 0x03) := by
  have h1 : Flag.Has f m = true ↔ f &&& m ≠ 0 := by simp [Flag.Has]
  refine ⟨h1, h1.trans (land_ne_zero_iff f m hf), ?_, by decide, by decide⟩
  simp [Flag.Has]

theorem Flag_Has_any_bit_witness :
    (Flag.Has 0x05 0x06 = true ↔ (0x05 : Nat) &&& 0x06 ≠ 0) ∧
      (Flag.Has 0x05 0x06 = true ↔
        ∃ i, i < 8 ∧ (0x05 : Nat).testBit i = true ∧ (0x06 : Nat).testBit i = true) ∧
      Flag.Has 0x05 0 = false ∧
      (Flag.Has 0x01 0x03 = true ∧ (0x01 : Nat) &&& 0x03 ≠ 0x03) :=
  Flag_Has_any_bit 0x05 0x06 (by decide)

/-- C18. Set then Has: for every 8-bit `f` and every non-zero 8-bit mask `m`,
after `f.Set(m)` the value is `f | m`, it is still an 8-bit value, and
`Has(m)` is true. -/
theorem Flag_Set_then_Has (f m : Nat) (hf : f < 256) (hm : m < 256) (hne : m ≠ 0) :
    Flag.Set f m = f ||| m ∧ Flag.Set f m < 256 ∧ Flag.Has (Flag.Set f m) m = true := by
  refine ⟨rfl, ?_, ?_⟩
  · exact Nat.or_lt_two_pow (n := 8) hf hm
  · unfold Flag.Has Flag.Set
    rw [lor_land_self]
    simpa using hne

theorem Flag_Set_then_Has_witness :
    Flag.Set 0 0x02 = 0 ||| 0x02 ∧ Flag.Set 0 0x02 < 256 ∧
      Flag.Has (Flag.Set 0 0x02) 0x02 = true :=
  Flag_Set_then_Has 0 0x02 (by decide) (by decide) (by decide)

/-- C19. Clear then Has: for every 8-bit `f` and `m`, after `f.Clear(m)` the
value is `f` AND the 8-bit complement `255 - m` of `m`, it is still an 8-bit
value, `Has(m)` is false, and every bit of `f` at a position where `m` has no
bit is unchanged. -/
theorem Flag_Clear_then_Has (f m : Nat) (hf : f < 256) (hm : m < 256) :
    Flag.Clear f m = f &&& (255 - m) ∧ Flag.Clear f m < 256 ∧
      Flag.Has (Flag.Clear f m) m = false ∧
      ∀ i, m.testBit i = false → (Flag.Clear f m).testBit i = f.testBit i := by
  have hcompl : m ^^^ 0xFF = 255 - m := by
    apply Nat.eq_of_testBit_eq
    intro i
    have h255 : 255 - m = 2 ^ 8 - (m + 1) := by norm_num; omega
    have hm8 : m < 2 ^ 8 := hm
    rw [h255, Nat.testBit_two_pow_sub_succ hm8 i, Nat.testBit_xor, testBit_0xFF]
    by_cases hi : i < 8
    · simp [hi]
    · have hmi := testBit_of_lt_256 m i hm (by omega)
      simp [hmi, hi]
  refine ⟨by unfold Flag.Clear; rw [hcompl], ?_, ?_, ?_⟩
  · unfold Flag.Clear
    exact lt_of_le_of_lt Nat.and_le_left hf
  · unfold Flag.Has Flag.Clear
    rw [clear_land_self f m hm]
    rfl
  · intro i hmi
    unfold Flag.Clear
    rw [Nat.testBit_and, Nat.testBit_xor, testBit_0xFF, hmi]
    by_cases hi : i < 8
    · simp [hi]
    · have hfi := testBit_of_lt_256 f i hf (by omega)
      simp [hfi]

theorem Flag_Clear_then_Has_witness :
    Flag.Clear 0x02 0x02 = 0x02 &&& (255 - 0x02) ∧ Flag.Clear 0x02 0x02 < 256 ∧
      Flag.Has (Flag.Clear 0x02 0x02) 0x02 = false ∧
      ∀ i, (0x02 : Nat).testBit i = false →
        (Flag.Clear 0x02 0x02).testBit i = (0x02 : Nat).testBit i :=
  Flag_Clear_then_Has 0x02 0x02 (by decide) (by decide)

/-- C20. Toggle is an involution: for every 8-bit `f` and `m`, `f.Toggle(m)`
sets the value to `f XOR m`, which is still an 8-bit value, and applying
`Toggle(m)` twice returns exactly the original `f`. -/
theorem Flag_Toggle_involution (f m : Nat) (hf : f < 256) (hm : m < 256) :
    Flag.Toggle f m = f ^^^ m ∧ Flag.Toggle f m < 256 ∧
      Flag.Toggle (Flag.Toggle f m) m = f := by
  refine ⟨rfl, Nat.xor_lt_two_pow (n := 8) hf hm, ?_⟩
  unfold Flag.Toggle
  rw [Nat.xor_assoc, Nat.xor_self, Nat.xor_zero]

theorem Flag_Toggle_involution_witness :
    Flag.Toggle 0 0x04 = 0 ^^^ 0x04 ∧ Flag.Toggle 0 0x04 < 256 ∧
      Flag.Toggle (Flag.Toggle 0 0x04) 0x04 = 0 :=
  Flag_Toggle_involution 0 0x04 (by decide) (by decide)


end Protocol
